import Mathlib

/-!
Verification of the multi-cluster fan-out and aggregation layer of rk9s.

Go strings are modelled as `List Char`; Go maps as lookup functions built by
iterated update; the per-batch goroutine pool as a step relation on task
statuses gated (or not) by a counting semaphore, exactly as each call site
builds (or omits) its `sem` channel.
-/

/-- Go strings, modelled character by character. -/
abbrev GoStr := List Char

/-- Shorthand turning a Lean string literal into a `GoStr`. -/
def gs (s : String) : GoStr := s.toList

/-! ## Row Identity Codec (package model1) -/

/-- Embeds `MultiContextSep = "@@"` from model1: the reserved separator between
context name and resource path in row IDs. -/
def MultiContextSep : GoStr := gs "@@"

/-- Embeds the scanning loop of model1's `indexOf`: starting at position `i`,
find the first position where `sep` occurs as a slice of `s`; `-1` if none.
The guard `i + sep.length ≤ s.length` is Go's `i <= len(s)-len(sep)` over ints. -/
def indexOfFrom (s sep : GoStr) (i : Nat) : Int :=
  if _h : i + sep.length ≤ s.length then
    if (s.drop i).take sep.length = sep then (i : Int)
    else indexOfFrom s sep (i + 1)
  else -1
termination_by s.length + 1 - i
decreasing_by omega

/-- Embeds `indexOf` from model1. -/
def indexOf (s sep : GoStr) : Int := indexOfFrom s sep 0

/-- Embeds `SplitMultiContextID` from model1: split a row ID into context and
path at the first occurrence of the separator; `("", id)` when absent. -/
def SplitMultiContextID (id : GoStr) : GoStr × GoStr :=
  let i := indexOf id MultiContextSep
  if i ≥ 0 then (id.take i.toNat, id.drop (i.toNat + MultiContextSep.length))
  else ([], id)

/-- Embeds `JoinMultiContextID` from model1: concatenation with the separator. -/
def JoinMultiContextID (ctx path : GoStr) : GoStr := ctx ++ MultiContextSep ++ path

/-- The slice check performed by `indexOf` at position `j`. -/
def sepAt (s sep : GoStr) (j : Nat) : Prop := (s.drop j).take sep.length = sep

instance (s sep : GoStr) (j : Nat) : Decidable (sepAt s sep j) := by
  unfold sepAt; infer_instance

theorem indexOfFrom_spec (s sep : GoStr) (hsep : 0 < sep.length) (i : Nat) :
    (∃ n : Nat, indexOfFrom s sep i = (n : Int) ∧ i ≤ n ∧ sepAt s sep n ∧
      ∀ j, i ≤ j → j < n → ¬ sepAt s sep j) ∨
    (indexOfFrom s sep i = -1 ∧ ∀ j, i ≤ j → ¬ sepAt s sep j) := by
  rw [indexOfFrom]
  by_cases h : i + sep.length ≤ s.length
  · rw [dif_pos h]
    by_cases hc : (s.drop i).take sep.length = sep
    · rw [if_pos hc]
      exact Or.inl ⟨i, rfl, le_refl i, hc, fun j h1 h2 => absurd (lt_of_le_of_lt h1 h2) (lt_irrefl i)⟩
    · rw [if_neg hc]
      rcases indexOfFrom_spec s sep hsep (i + 1) with ⟨n, hn, hin, hocc, hmin⟩ | ⟨hneg, hall⟩
      · refine Or.inl ⟨n, hn, by omega, hocc, fun j h1 h2 => ?_⟩
        rcases Nat.eq_or_lt_of_le h1 with rfl | h1'
        · exact hc
        · exact hmin j h1' h2
      · refine Or.inr ⟨hneg, fun j h1 => ?_⟩
        rcases Nat.eq_or_lt_of_le h1 with rfl | h1'
        · exact hc
        · exact hall j h1'
  · rw [dif_neg h]
    refine Or.inr ⟨rfl, fun j hij hsat => ?_⟩
    have hlen : ((s.drop j).take sep.length).length < sep.length := by
      simp only [List.length_take, List.length_drop]
      omega
    rw [hsat] at hlen
    exact lt_irrefl _ hlen
termination_by s.length + 1 - i
decreasing_by omega

/-- A separator occurrence as a slice is the same as containment as a
contiguous sublist. -/
theorem sepAt_iff_contained (s sep : GoStr) :
    (∃ j, sepAt s sep j) ↔ sep <:+: s := by
  constructor
  · rintro ⟨j, hj⟩
    unfold sepAt at hj
    refine ⟨s.take j, (s.drop j).drop sep.length, ?_⟩
    have h1 : (s.drop j).take sep.length ++ (s.drop j).drop sep.length = s.drop j :=
      List.take_append_drop _ _
    rw [hj] at h1
    rw [List.append_assoc, h1, List.take_append_drop]
  · rintro ⟨u, v, huv⟩
    refine ⟨u.length, ?_⟩
    unfold sepAt
    have hd : s.drop u.length = sep ++ v := by
      rw [← huv, List.append_assoc, List.drop_left]
    rw [hd, List.take_append_of_le_length (le_refl _), List.take_length]

/-- Claim C7: for an id not containing the reserved separator "@@",
`SplitMultiContextID` returns `("", id)`; when the separator is present, it
splits at the first occurrence. -/
theorem c7_split_first_occurrence (id : GoStr) :
    (¬ MultiContextSep <:+: id → SplitMultiContextID id = ([], id)) ∧
    (MultiContextSep <:+: id →
      ∃ n : Nat, sepAt id MultiContextSep n ∧
        (∀ j, j < n → ¬ sepAt id MultiContextSep j) ∧
        SplitMultiContextID id = (id.take n, id.drop (n + MultiContextSep.length))) := by
  rcases indexOfFrom_spec id MultiContextSep (by decide) 0 with
    ⟨n, hn, _, hocc, hmin⟩ | ⟨hneg, hall⟩
  · constructor
    · intro habs
      exact absurd ((sepAt_iff_contained id MultiContextSep).mp ⟨n, hocc⟩) habs
    · intro _
      refine ⟨n, hocc, fun j hj => hmin j (Nat.zero_le j) hj, ?_⟩
      unfold SplitMultiContextID indexOf
      rw [hn]
      rw [if_pos (by positivity)]
      simp
  · constructor
    · intro _
      unfold SplitMultiContextID indexOf
      rw [hneg]
      rw [if_neg (by norm_num)]
    · intro hin
      rcases (sepAt_iff_contained id MultiContextSep).mpr hin with ⟨j, hj⟩
      exact absurd hj (hall j (Nat.zero_le j))

/-- Witness for C7 at concrete inputs: an id without the separator, and one
with it. -/
theorem c7_split_first_occurrence_witness :
    SplitMultiContextID (gs "pod-1") = ([], gs "pod-1") ∧
    (∃ n : Nat, sepAt (gs "c1@@ns/p") MultiContextSep n ∧
      (∀ j, j < n → ¬ sepAt (gs "c1@@ns/p") MultiContextSep j) ∧
      SplitMultiContextID (gs "c1@@ns/p") =
        ((gs "c1@@ns/p").take n, (gs "c1@@ns/p").drop (n + MultiContextSep.length))) :=
  ⟨(c7_split_first_occurrence (gs "pod-1")).1 (by decide),
   (c7_split_first_occurrence (gs "c1@@ns/p")).2 (by decide)⟩

/-- Claim C6 fails as stated: `C = "x@"` and `P = "y"` contain no "@@", yet
joining and splitting them yields `("x", "@y")`, not `("x@", "y")` — the
join manufactures an earlier separator occurrence at the boundary. -/
theorem c6_roundtrip_counterexample :
    ¬ MultiContextSep <:+: gs "x@" ∧ ¬ MultiContextSep <:+: gs "y" ∧
    SplitMultiContextID (JoinMultiContextID (gs "x@") (gs "y")) ≠ (gs "x@", gs "y") := by
  refine ⟨by decide, by decide, ?_⟩
  have h : JoinMultiContextID (gs "x@") (gs "y") = gs "x@@@y" := by decide
  rw [h]
  have h2 : SplitMultiContextID (gs "x@@@y") = (gs "x", gs "@y") := by
    simp +decide [SplitMultiContextID, indexOf, MultiContextSep, gs, indexOfFrom]
  rw [h2]
  decide

/-- Claim C6 (amended): the round-trip additionally requires that the context
name does not end in the separator's character `'@'`; then for every path not
containing the separator, `SplitMultiContextID (JoinMultiContextID C P) = (C, P)`. -/
theorem c6_roundtrip (C P : GoStr) (hC : ¬ MultiContextSep <:+: C)
    (hlast : C.getLast? ≠ some '@') (hP : ¬ MultiContextSep <:+: P) :
    SplitMultiContextID (JoinMultiContextID C P) = (C, P) := by
  have hsep2 : MultiContextSep.length = 2 := by decide
  have hocc : sepAt (JoinMultiContextID C P) MultiContextSep C.length := by
    unfold sepAt JoinMultiContextID
    rw [List.append_assoc, List.drop_left,
      List.take_append_of_le_length (le_refl _), List.take_length]
  have hbelow : ∀ j, j < C.length → ¬ sepAt (JoinMultiContextID C P) MultiContextSep j := by
    intro j hj hs
    unfold sepAt JoinMultiContextID at hs
    rw [hsep2] at hs
    by_cases hcase : j + 2 ≤ C.length
    · rw [List.append_assoc, List.drop_append_of_le_length (by omega),
        List.take_append_of_le_length (by simp; omega)] at hs
      exact hC <| (sepAt_iff_contained C MultiContextSep).mp
        ⟨j, by unfold sepAt; rw [hsep2]; exact hs⟩
    · have hj1 : j + 1 = C.length := by omega
      have hlen1 : (C.drop j).length = 1 := by simp; omega
      rcases List.length_eq_one.mp hlen1 with ⟨c, hc⟩
      rw [List.append_assoc, List.drop_append_of_le_length (by omega), hc] at hs
      have hc'' : c = '@' := by
        have h0 := congrArg List.headI hs
        simp [MultiContextSep, gs] at h0
        exact h0
      have hCsplit : C = C.take j ++ [c] := by
        conv_lhs => rw [← List.take_append_drop j C]
        rw [hc]
      rw [hCsplit, List.getLast?_concat, hc''] at hlast
      exact hlast rfl
  rcases indexOfFrom_spec (JoinMultiContextID C P) MultiContextSep (by decide) 0 with
    ⟨n, hn, _, hoccn, hmin⟩ | ⟨_, hall⟩
  · have hn_eq : n = C.length := by
      rcases Nat.lt_trichotomy n C.length with h | h | h
      · exact absurd hoccn (hbelow n h)
      · exact h
      · exact absurd hocc (hmin C.length (Nat.zero_le _) h)
    unfold SplitMultiContextID indexOf
    rw [hn, if_pos (by positivity)]
    simp only [Int.toNat_ofNat, hn_eq]
    rw [Prod.mk.injEq]
    constructor
    · unfold JoinMultiContextID
      rw [List.take_append_of_le_length (by simp),
        List.take_append_of_le_length (le_refl _), List.take_length]
    · unfold JoinMultiContextID
      have hlen : C.length + MultiContextSep.length = (C ++ MultiContextSep).length := by
        simp
      rw [hlen, List.drop_left]
  · exact absurd hocc (hall C.length (Nat.zero_le _))

/-- Witness for the amended C6 at concrete inputs. -/
theorem c6_roundtrip_witness :
    SplitMultiContextID (JoinMultiContextID (gs "ctx1") (gs "ns/pod")) = (gs "ctx1", gs "ns/pod") :=
  c6_roundtrip (gs "ctx1") (gs "ns/pod") (by decide) (by decide) (by decide)

/-! ## Command fan-out (package mc) -/

/-- One iteration of the loop body of mc's `injectContext`: on the first `"--"`
token, append `"--context"`, the context name, then the token, and set the
`injected` flag; otherwise just append the token. -/
def injectStep (context : GoStr) (acc : List GoStr × Bool) (a : GoStr) : List GoStr × Bool :=
  if a = gs "--" ∧ acc.2 = false then (acc.1 ++ [gs "--context", context, a], true)
  else (acc.1 ++ [a], acc.2)

/-- Embeds `injectContext` from mc: add `--context <ctx>` to the kubectl args,
before a `"--"` token if present, else at the end. -/
def injectContext (args : List GoStr) (context : GoStr) : List GoStr :=
  let r := args.foldl (injectStep context) ([], false)
  if r.2 then r.1 else r.1 ++ [gs "--context", context]

theorem injectStep_foldl_true (context : GoStr) (args : List GoStr) :
    ∀ acc : List GoStr, args.foldl (injectStep context) (acc, true) = (acc ++ args, true) := by
  induction args with
  | nil => intro acc; simp
  | cons a rest ih =>
    intro acc
    rw [List.foldl_cons]
    have hstep : injectStep context (acc, true) a = (acc ++ [a], true) := by
      unfold injectStep
      rw [if_neg (by simp)]
    rw [hstep, ih]
    simp

theorem injectStep_foldl_clean (context : GoStr) (args : List GoStr)
    (hno : gs "--" ∉ args) :
    ∀ acc : List GoStr, args.foldl (injectStep context) (acc, false) = (acc ++ args, false) := by
  induction args with
  | nil => intro acc; simp
  | cons a rest ih =>
    intro acc
    rw [List.foldl_cons]
    have hstep : injectStep context (acc, false) a = (acc ++ [a], false) := by
      unfold injectStep
      rw [if_neg (by simp; intro h; exact absurd (h ▸ List.mem_cons_self a rest) hno)]
    rw [hstep, ih (fun h => hno (List.mem_cons_of_mem a h))]
    simp

/-- Claim C8: `injectContext` inserts `"--context", name` immediately before
the first `"--"` token when present, otherwise appends them at the end, and
preserves all other tokens in order; including the spec's two scenarios. -/
theorem c8_injectContext_spec :
    (∀ args context, gs "--" ∉ args →
      injectContext args context = args ++ [gs "--context", context]) ∧
    (∀ l₁ l₂ context, gs "--" ∉ l₁ →
      injectContext (l₁ ++ gs "--" :: l₂) context
        = l₁ ++ gs "--context" :: context :: gs "--" :: l₂) ∧
    injectContext [gs "get", gs "pods"] (gs "ctx1")
      = [gs "get", gs "pods", gs "--context", gs "ctx1"] ∧
    injectContext [gs "exec", gs "p", gs "--", gs "ls"] (gs "ctx1")
      = [gs "exec", gs "p", gs "--context", gs "ctx1", gs "--", gs "ls"] := by
  refine ⟨?_, ?_, by decide, by decide⟩
  · intro args context hno
    unfold injectContext
    rw [injectStep_foldl_clean context args hno]
    simp
  · intro l₁ l₂ context hno
    unfold injectContext
    rw [List.foldl_append, injectStep_foldl_clean context l₁ hno, List.foldl_cons]
    have hstep : injectStep context (([] : List GoStr) ++ l₁, false) (gs "--")
        = (([] : List GoStr) ++ l₁ ++ [gs "--context", context, gs "--"], true) := by
      unfold injectStep
      rw [if_pos (by simp)]
    rw [hstep, injectStep_foldl_true]
    simp

/-- Witness for C8: both general conjuncts applied at concrete inputs. -/
theorem c8_injectContext_spec_witness :
    injectContext [gs "a"] (gs "c") = [gs "a"] ++ [gs "--context", gs "c"] ∧
    injectContext ([gs "x"] ++ gs "--" :: [gs "y"]) (gs "c")
      = [gs "x"] ++ gs "--context" :: gs "c" :: gs "--" :: [gs "y"] :=
  ⟨c8_injectContext_spec.1 [gs "a"] (gs "c") (by decide),
   c8_injectContext_spec.2.1 [gs "x"] [gs "y"] (gs "c") (by decide)⟩

/-- Go's `unicode.IsSpace`: the Unicode White_Space code points. -/
def goIsSpace (c : Char) : Bool :=
  (9 ≤ c.toNat && c.toNat ≤ 13) || c.toNat = 32 || c.toNat = 133 || c.toNat = 160 ||
  c.toNat = 0x1680 || (0x2000 ≤ c.toNat && c.toNat ≤ 0x200A) ||
  c.toNat = 0x2028 || c.toNat = 0x2029 || c.toNat = 0x202F ||
  c.toNat = 0x205F || c.toNat = 0x3000

/-- Embeds `strings.TrimSpace`: drop leading and trailing white space. -/
def trimSpace (s : GoStr) : GoStr :=
  ((s.dropWhile goIsSpace).reverse.dropWhile goIsSpace).reverse

/-- Outcome of `exec.Command("kubectl", localArgs...).Run()`: either success
with captured stdout, or failure with captured stderr and the `error`'s text. -/
inductive ExecOutcome where
  | success (stdout : GoStr)
  | failure (stderr : GoStr) (errText : GoStr)

/-- Embeds mc's `Result`: output from a single context execution. `Err` holds
the error's message, `none` standing for Go's nil error. -/
structure Result where
  Context : GoStr
  Output : GoStr
  Err : Option GoStr

/-- The zero value a `make([]Result, n)` slot starts with. -/
def zeroResult : Result := ⟨[], [], none⟩

/-- Embeds the body of one RunParallel goroutine (part_001 lines 43-61): run
kubectl with the context flag injected and build this context's `Result`,
folding the error message (trimmed stderr, or the error text when that trims
to empty) into `Output`. `run` stands for the external process execution. -/
def mkResult (run : List GoStr → ExecOutcome) (args : List GoStr) (context : GoStr) : Result :=
  match run (injectContext args context) with
  | .success stdout => { Context := context, Output := stdout, Err := none }
  | .failure stderr errText =>
      let errMsg := if trimSpace stderr = [] then errText else trimSpace stderr
      { Context := context, Output := errMsg, Err := some errMsg }

/-- Embeds `defaultMaxProc = 10` from mc. -/
def defaultMaxProc : Int := 10

/-- Embeds RunParallel's clamp (lines 28-30) feeding the semaphore capacity
(line 33): `maxProc` at most 0 falls back to `defaultMaxProc`. -/
def RunParallelBound (maxProc : Int) : Nat :=
  (if maxProc ≤ 0 then defaultMaxProc else maxProc).toNat

/-- Embeds RunParallel's result assembly: a pre-sized, index-addressed slice
(`make([]Result, len(contexts))`, `results[idx] = r`), written by the
goroutines in an arbitrary completion order `order`; `wg.Wait` makes the
returned slice the state after all writes. -/
def RunParallel (run : List GoStr → ExecOutcome) (contexts args : List GoStr)
    (maxProc : Int) (order : List Nat) : List Result :=
  let _ := RunParallelBound maxProc
  order.foldl (fun res idx => res.set idx (mkResult run args (contexts.getD idx [])))
    (List.replicate contexts.length zeroResult)

theorem runParallel_writes_length (f : Nat → Result) (order : List Nat) :
    ∀ init : List Result,
      (order.foldl (fun res idx => res.set idx (f idx)) init).length = init.length := by
  induction order with
  | nil => intro init; rfl
  | cons j rest ih =>
    intro init
    rw [List.foldl_cons, ih, List.length_set]

theorem runParallel_writes_skip (f : Nat → Result) (order : List Nat) (i : Nat)
    (hni : i ∉ order) :
    ∀ init : List Result,
      (order.foldl (fun res idx => res.set idx (f idx)) init).getD i zeroResult
        = init.getD i zeroResult := by
  induction order with
  | nil => intro init; rfl
  | cons j rest ih =>
    intro init
    rw [List.foldl_cons, ih (fun h => hni (List.mem_cons_of_mem j h))]
    have hij : j ≠ i := fun h => hni (h ▸ List.mem_cons_self j rest)
    simp [List.getD_eq_getElem?_getD, List.getElem?_set, hij]

theorem runParallel_writes_get (f : Nat → Result) (order : List Nat) (i : Nat)
    (hmem : i ∈ order) :
    ∀ init : List Result, i < init.length →
      (order.foldl (fun res idx => res.set idx (f idx)) init).getD i zeroResult = f i := by
  induction order with
  | nil => exact absurd hmem (List.not_mem_nil i)
  | cons j rest ih =>
    intro init hi
    rw [List.foldl_cons]
    by_cases hr : i ∈ rest
    · exact ih hr (init.set j (f j)) (by rw [List.length_set]; exact hi)
    · have hij : j = i := by
        rcases List.mem_cons.mp hmem with h | h
        · exact h.symm
        · exact absurd h hr
      rw [runParallel_writes_skip f rest i hr]
      simp [List.getD_eq_getElem?_getD, List.getElem?_set, hij, hi]

/-- Claim C2: `RunParallel` returns a slice of length `len(contexts)` whose
slot `i` carries `contexts[i]` as its `Context`, for every completion order
that writes every index (which `wg.Wait` guarantees). -/
theorem c2_runParallel_positional (run : List GoStr → ExecOutcome)
    (contexts args : List GoStr) (maxProc : Int) (order : List Nat)
    (horder : ∀ i, i < contexts.length → i ∈ order) :
    (RunParallel run contexts args maxProc order).length = contexts.length ∧
    ∀ i, i < contexts.length →
      ((RunParallel run contexts args maxProc order).getD i zeroResult).Context
        = contexts.getD i [] := by
  constructor
  · unfold RunParallel
    rw [runParallel_writes_length]
    exact List.length_replicate _ _
  · intro i hi
    unfold RunParallel
    rw [runParallel_writes_get _ order i (horder i hi) _
      (by rw [List.length_replicate]; exact hi)]
    unfold mkResult
    cases run (injectContext args (contexts.getD i [])) <;> rfl

/-- An always-succeeding external executor, for concrete instantiation. -/
def runOK : List GoStr → ExecOutcome := fun _ => .success (gs "ok\n")

/-- A failing external executor, for concrete instantiation. -/
def runFail : List GoStr → ExecOutcome := fun _ => .failure (gs " boom ") (gs "exit status 1")

/-- Witness for C2: two contexts written in reversed completion order still
land positionally. -/
theorem c2_runParallel_positional_witness :
    (RunParallel runOK [gs "a", gs "b"] [gs "get"] 10 [1, 0]).length = 2 ∧
    ((RunParallel runOK [gs "a", gs "b"] [gs "get"] 10 [1, 0]).getD 0 zeroResult).Context
      = gs "a" ∧
    ((RunParallel runOK [gs "a", gs "b"] [gs "get"] 10 [1, 0]).getD 1 zeroResult).Context
      = gs "b" := by
  have h := c2_runParallel_positional runOK [gs "a", gs "b"] [gs "get"] 10 [1, 0]
    (by intro i hi
        have h2 : i < 2 := by simpa using hi
        interval_cases i <;> decide)
  exact ⟨h.1, (h.2 0 (by norm_num)).trans (by decide), (h.2 1 (by norm_num)).trans (by decide)⟩

/-- Embeds the loop body of mc's `FormatResults` for one slot: a header line,
a dashed underline, then the output — prefixed with `"  (error) "` when the
slot's error is non-nil. -/
def formatOne (r : Result) : GoStr :=
  gs "\n" ++ r.Context ++ gs "\n" ++ List.replicate r.Context.length '-' ++ gs "\n" ++
  (if r.Err.isSome then gs "  (error) " ++ r.Output ++ gs "\n" else r.Output)

/-- Embeds mc's `FormatResults`: concatenate the rendering of every slot. -/
def FormatResults (rs : List Result) : GoStr :=
  rs.foldl (fun b r => b ++ formatOne r) []

/-- Claim C9: a failed execution's slot carries a non-nil error whose message
(trimmed stderr, or the process error text when that is empty) is also its
`Output`; `FormatResults` renders error slots with the `"  (error) "` prefix
and successful slots unprefixed. -/
theorem c9_error_folding :
    (∀ run args context stderr errText,
      run (injectContext args context) = .failure stderr errText →
        (mkResult run args context).Err
            = some (if trimSpace stderr = [] then errText else trimSpace stderr) ∧
        (mkResult run args context).Output
            = (if trimSpace stderr = [] then errText else trimSpace stderr)) ∧
    (∀ run args context stdout,
      run (injectContext args context) = .success stdout →
        (mkResult run args context).Err = none ∧
        (mkResult run args context).Output = stdout) ∧
    (∀ r : Result, r.Err.isSome = true →
      FormatResults [r] = gs "\n" ++ r.Context ++ gs "\n"
        ++ List.replicate r.Context.length '-' ++ gs "\n"
        ++ gs "  (error) " ++ r.Output ++ gs "\n") ∧
    (∀ r : Result, r.Err = none →
      FormatResults [r] = gs "\n" ++ r.Context ++ gs "\n"
        ++ List.replicate r.Context.length '-' ++ gs "\n" ++ r.Output) := by
  refine ⟨?_, ?_, ?_, ?_⟩
  · intro run args context stderr errText h
    unfold mkResult
    rw [h]
    exact ⟨rfl, rfl⟩
  · intro run args context stdout h
    unfold mkResult
    rw [h]
    exact ⟨rfl, rfl⟩
  · intro r h
    unfold FormatResults formatOne
    rw [List.foldl_cons, List.foldl_nil, List.nil_append, h, if_pos rfl]
    simp [List.append_assoc]
  · intro r h
    unfold FormatResults formatOne
    rw [List.foldl_cons, List.foldl_nil, List.nil_append, h]
    simp [List.append_assoc]

/-- Witness for C9 at concrete slots and executors. -/
theorem c9_error_folding_witness :
    (mkResult runFail [gs "get"] (gs "c1")).Err
      = some (if trimSpace (gs " boom ") = [] then gs "exit status 1"
          else trimSpace (gs " boom ")) ∧
    (mkResult runOK [gs "get"] (gs "c1")).Err = none ∧
    FormatResults [⟨gs "c", gs "o", some (gs "e")⟩]
      = gs "\n" ++ gs "c" ++ gs "\n" ++ List.replicate (gs "c").length '-' ++ gs "\n"
        ++ gs "  (error) " ++ gs "o" ++ gs "\n" ∧
    FormatResults [⟨gs "c", gs "o", none⟩]
      = gs "\n" ++ gs "c" ++ gs "\n" ++ List.replicate (gs "c").length '-' ++ gs "\n"
        ++ gs "o" :=
  ⟨(c9_error_folding.1 runFail [gs "get"] (gs "c1") (gs " boom ") (gs "exit status 1") rfl).1,
   (c9_error_folding.2.1 runOK [gs "get"] (gs "c1") (gs "ok\n") rfl).1,
   c9_error_folding.2.2.1 ⟨gs "c", gs "o", some (gs "e")⟩ rfl,
   c9_error_folding.2.2.2 ⟨gs "c", gs "o", none⟩ rfl⟩

/-! ## Fan-out dispatch concurrency

Each batch launches one task per context. A task is admitted into the
running state by acquiring the call site's semaphore (`sem <- struct{}{}`
before the `go` statement) when the site has one, and releases it on exit
(`defer func() { <-sem }()`). -/

/-- Lifecycle of one dispatched task. -/
inductive TaskStatus where
  | pending
  | running
  | finished
deriving DecidableEq

/-- Whether a task is in the running state. -/
def isRunning : TaskStatus → Bool
  | .running => true
  | _ => false

/-- Number of tasks simultaneously in the running state. -/
def runningCount (s : List TaskStatus) : Nat := s.countP isRunning

/-- One scheduler step of a fan-out batch. `gated` records whether the call
site guards goroutine start with a counting semaphore of capacity `bound`:
a pending task may start only if, when gated, fewer than `bound` tasks are
running; a running task may finish at any time. -/
inductive DStep (gated : Bool) (bound : Nat) :
    List TaskStatus → List TaskStatus → Prop where
  | start (s : List TaskStatus) (i : Nat) (hp : s[i]? = some .pending)
      (hg : gated = true → runningCount s < bound) :
      DStep gated bound s (s.set i .running)
  | finish (s : List TaskStatus) (i : Nat) (hr : s[i]? = some .running) :
      DStep gated bound s (s.set i .finished)

theorem countP_set_eq (p : TaskStatus → Bool) :
    ∀ (s : List TaskStatus) (i : Nat) (a b : TaskStatus), s[i]? = some b →
      (s.set i a).countP p + (if p b then 1 else 0)
        = s.countP p + (if p a then 1 else 0) := by
  intro s
  induction s with
  | nil => intro i a b hb; simp at hb
  | cons x xs ih =>
    intro i a b hb
    cases i with
    | zero =>
      simp only [List.getElem?_cons_zero, Option.some.injEq] at hb
      subst hb
      simp only [List.set_cons_zero, List.countP_cons]
      omega
    | succ j =>
      simp only [List.getElem?_cons_succ] at hb
      have h := ih j a b hb
      simp only [List.set_cons_succ, List.countP_cons]
      omega

theorem dstep_preserves_bound (bound : Nat) (s s' : List TaskStatus)
    (h : DStep true bound s s') (hs : runningCount s ≤ bound) :
    runningCount s' ≤ bound := by
  cases h with
  | start i hp hg =>
    have hc := countP_set_eq isRunning s i .running .pending hp
    unfold runningCount
    simp only [isRunning] at hc
    norm_num at hc
    have := hg rfl
    unfold runningCount at this
    omega
  | finish i hr =>
    have hc := countP_set_eq isRunning s i .finished .running hr
    unfold runningCount at hs ⊢
    simp only [isRunning] at hc
    norm_num at hc
    omega

theorem dreach_bound (bound : Nat) (s s' : List TaskStatus)
    (h : Relation.ReflTransGen (DStep true bound) s s')
    (hs : runningCount s ≤ bound) : runningCount s' ≤ bound := by
  induction h with
  | refl => exact hs
  | tail _ hstep ih => exact dstep_preserves_bound bound _ _ hstep ih

/-- Embeds `mcMaxParallel = 10` from dao (part_000 line 25). -/
def mcMaxParallel : Nat := 10

/-- Dispatch discipline of `MultiContextList`: goroutine admission gated by
`sem := make(chan struct{}, mcMaxParallel)`. -/
def MultiContextListStep : List TaskStatus → List TaskStatus → Prop :=
  DStep true mcMaxParallel

/-- Dispatch discipline of `RunParallel`: admission gated by
`sem := make(chan struct{}, maxProc)` after the non-positive clamp. -/
def RunParallelStep (maxProc : Int) : List TaskStatus → List TaskStatus → Prop :=
  DStep true (RunParallelBound maxProc)

/-- Dispatch discipline of `MultiContextServerVersions` (part_000 lines
146-169): one goroutine per context started unconditionally — no semaphore. -/
def MultiContextServerVersionsStep : List TaskStatus → List TaskStatus → Prop :=
  DStep false 0

theorem runningCount_replicate_pending (n : Nat) :
    runningCount (List.replicate n .pending) = 0 := by
  unfold runningCount
  rw [List.countP_replicate]
  rfl

/-- Claim C1 (amended): in the two semaphore-gated instantiations — resource
listing and command execution — a batch of `n` tasks never has more than the
bound (`mcMaxParallel = 10`, resp. the clamped `maxProc`) simultaneously
running. (Version probing is not gated; see the counterexample.) -/
theorem c1_gated_dispatch_bounded (n : Nat) (s : List TaskStatus) :
    (Relation.ReflTransGen MultiContextListStep (List.replicate n .pending) s →
      runningCount s ≤ mcMaxParallel) ∧
    (∀ maxProc : Int,
      Relation.ReflTransGen (RunParallelStep maxProc) (List.replicate n .pending) s →
        runningCount s ≤ RunParallelBound maxProc) := by
  constructor
  · intro h
    exact dreach_bound mcMaxParallel _ _ h
      (by rw [runningCount_replicate_pending]; exact Nat.zero_le _)
  · intro maxProc h
    exact dreach_bound (RunParallelBound maxProc) _ _ h
      (by rw [runningCount_replicate_pending]; exact Nat.zero_le _)

/-- Witness for the amended C1 at a concrete batch. -/
theorem c1_gated_dispatch_bounded_witness :
    runningCount (List.replicate 3 .pending) ≤ mcMaxParallel ∧
    runningCount (List.replicate 3 .pending) ≤ RunParallelBound 10 :=
  ⟨(c1_gated_dispatch_bounded 3 (List.replicate 3 .pending)).1 Relation.ReflTransGen.refl,
   (c1_gated_dispatch_bounded 3 (List.replicate 3 .pending)).2 10 Relation.ReflTransGen.refl⟩

theorem versions_start_all (n : Nat) :
    ∀ k : Nat, Relation.ReflTransGen MultiContextServerVersionsStep
      (List.replicate k .running ++ List.replicate n .pending)
      (List.replicate (k + n) .running) := by
  induction n with
  | zero =>
    intro k
    simp only [List.replicate, List.append_nil, Nat.add_zero]
    exact Relation.ReflTransGen.refl
  | succ m ih =>
    intro k
    have hstep : MultiContextServerVersionsStep
        (List.replicate k .running ++ List.replicate (m + 1) .pending)
        (List.replicate (k + 1) .running ++ List.replicate m .pending) := by
      have hp : (List.replicate k TaskStatus.running
          ++ List.replicate (m + 1) TaskStatus.pending)[k]? = some .pending := by
        rw [List.getElem?_append_right (by rw [List.length_replicate])]
        simp [List.replicate_succ]
      have hset : (List.replicate k TaskStatus.running
            ++ List.replicate (m + 1) TaskStatus.pending).set k .running
          = List.replicate (k + 1) .running ++ List.replicate m .pending := by
        rw [List.replicate_succ (a := TaskStatus.pending),
          List.set_append_right _ _ (by rw [List.length_replicate])]
        rw [List.length_replicate, Nat.sub_self, List.set_cons_zero]
        rw [List.append_cons, ← List.replicate_succ' (n := k)]
      have h := @DStep.start false 0
        (List.replicate k .running ++ List.replicate (m + 1) .pending) k hp
        (fun hfalse => Bool.noConfusion hfalse)
      unfold MultiContextServerVersionsStep
      rw [← hset]
      exact h
    have hrest := ih (k + 1)
    have harith : k + 1 + m = k + (m + 1) := by omega
    rw [harith] at hrest
    exact Relation.ReflTransGen.head hstep hrest

/-- Claim C1 fails as stated for version probing: `MultiContextServerVersions`
launches its goroutines with no semaphore, so from a batch of 11 pending
tasks the state with all 11 simultaneously running is reachable, exceeding
the claimed bound of 10. -/
theorem c1_versions_unbounded_counterexample :
    Relation.ReflTransGen MultiContextServerVersionsStep
      (List.replicate 11 TaskStatus.pending) (List.replicate 11 TaskStatus.running) ∧
    runningCount (List.replicate 11 TaskStatus.running) = 11 ∧
    ¬ (runningCount (List.replicate 11 TaskStatus.running) ≤ mcMaxParallel) := by
  refine ⟨?_, by decide, by decide⟩
  have h := versions_start_all 11 0
  simpa using h

/-- Claim C10: a non-positive `maxProc` is silently clamped to the default
10: the semaphore capacity, the result slice, and the dispatch discipline
all coincide with those of `maxProc = 10`. -/
theorem c10_maxProc_clamp (maxProc : Int) (hm : maxProc ≤ 0) :
    RunParallelBound maxProc = 10 ∧
    RunParallelBound maxProc = RunParallelBound 10 ∧
    (∀ run contexts args order,
      RunParallel run contexts args maxProc order
        = RunParallel run contexts args 10 order) ∧
    (∀ s s', RunParallelStep maxProc s s' ↔ RunParallelStep 10 s s') := by
  have h10 : RunParallelBound maxProc = 10 := by
    unfold RunParallelBound defaultMaxProc
    rw [if_pos hm]
    rfl
  have h10' : RunParallelBound 10 = 10 := by decide
  refine ⟨h10, by rw [h10, h10'], fun run contexts args order => rfl, fun s s' => ?_⟩
  unfold RunParallelStep
  rw [h10, h10']

/-- Witness for C10 at `maxProc = 0`. -/
theorem c10_maxProc_clamp_witness :
    RunParallelBound 0 = 10 ∧
    RunParallel runOK [gs "a"] [gs "get"] 0 [0] = RunParallel runOK [gs "a"] [gs "get"] 10 [0] :=
  ⟨(c10_maxProc_clamp 0 (le_refl 0)).1,
   (c10_maxProc_clamp 0 (le_refl 0)).2.2.1 runOK [gs "a"] [gs "get"] [0]⟩

/-! ## Multi-context listing (package dao) -/

/-- Embeds dao's `ContextObject`: a fetched object tagged with the context it
came from. -/
structure ContextObject (α : Type) where
  Context : GoStr
  Object : α

/-- One drain iteration of `MultiContextList`'s channel loop (part_000 lines
119-132): an errored context is logged and skipped; a successful one appends
its objects, each tagged with the origin context. -/
def mclStep {α : Type} (outcome : GoStr → Except GoStr (List α))
    (out : List (ContextObject α)) (c : GoStr) : List (ContextObject α) :=
  match outcome c with
  | .error _ => out
  | .ok objs => out ++ objs.map (fun o => ⟨c, o⟩)

/-- Embeds `MultiContextList`: `outcome` abstracts the per-context client
construction and list call of one goroutine; `arrival` is the channel arrival
order, a permutation of the batch's contexts. Returns the aggregated tagged
objects and the batch-level error, which is always nil. -/
def MultiContextList {α : Type} (outcome : GoStr → Except GoStr (List α))
    (arrival : List GoStr) : List (ContextObject α) × Option GoStr :=
  (arrival.foldl (mclStep outcome) [], none)

theorem mclStep_foldl_mem {α : Type} (outcome : GoStr → Except GoStr (List α)) :
    ∀ (arrival : List GoStr) (acc : List (ContextObject α)) (x : ContextObject α),
      x ∈ arrival.foldl (mclStep outcome) acc ↔
        x ∈ acc ∨ ∃ c, c ∈ arrival ∧ ∃ objs, outcome c = Except.ok objs ∧
          x.Context = c ∧ x.Object ∈ objs := by
  intro arrival
  induction arrival with
  | nil =>
    intro acc x
    simp
  | cons a rest ih =>
    intro acc x
    rw [List.foldl_cons]
    rcases hout : outcome a with e | objs
    · have hstep : mclStep outcome acc a = acc := by unfold mclStep; rw [hout]
      rw [hstep, ih]
      constructor
      · rintro (hx | ⟨c, hc, objs, hobjs, hctx, hobj⟩)
        · exact Or.inl hx
        · exact Or.inr ⟨c, List.mem_cons_of_mem a hc, objs, hobjs, hctx, hobj⟩
      · rintro (hx | ⟨c, hc, objs, hobjs, hctx, hobj⟩)
        · exact Or.inl hx
        · rcases List.mem_cons.mp hc with rfl | hc'
          · rw [hout] at hobjs
            exact Except.noConfusion hobjs
          · exact Or.inr ⟨c, hc', objs, hobjs, hctx, hobj⟩
    · have hstep : mclStep outcome acc a = acc ++ objs.map (fun o => ⟨a, o⟩) := by
        unfold mclStep; rw [hout]
      rw [hstep, ih]
      constructor
      · rintro (hx | ⟨c, hc, objs', hobjs', hctx, hobj⟩)
        · rcases List.mem_append.mp hx with h | h
          · exact Or.inl h
          · rcases List.mem_map.mp h with ⟨o, ho, rfl⟩
            exact Or.inr ⟨a, List.mem_cons_self a rest, objs, hout, rfl, ho⟩
        · exact Or.inr ⟨c, List.mem_cons_of_mem a hc, objs', hobjs', hctx, hobj⟩
      · rintro (hx | ⟨c, hc, objs', hobjs', hctx, hobj⟩)
        · exact Or.inl (List.mem_append_left _ hx)
        · rcases List.mem_cons.mp hc with rfl | hc'
          · obtain ⟨xc, xo⟩ := x
            have hobjs'' : Except.ok (ε := GoStr) objs = Except.ok objs' := hout.symm.trans hobjs'
            have hoeq : objs = objs' := by injection hobjs''
            subst hoeq
            simp only at hctx hobj
            subst hctx
            exact Or.inl (List.mem_append_right _ (List.mem_map.mpr ⟨xo, hobj, rfl⟩))
          · exact Or.inr ⟨c, hc', objs', hobjs', hctx, hobj⟩

/-- Claim C3: if exactly one of the batch's contexts fails, `MultiContextList`
still returns the other contexts' objects, each tagged with its origin
context, the failing context contributes nothing, and the batch-level error
is nil — whatever the channel arrival order. -/
theorem c3_multiContextList_isolation {α : Type} (outcome : GoStr → Except GoStr (List α))
    (contexts arrival : List GoStr) (f : GoStr) (objsOf : GoStr → List α) (e : GoStr)
    (hperm : arrival.Perm contexts)
    (hf : outcome f = .error e)
    (hok : ∀ c, c ≠ f → outcome c = .ok (objsOf c)) :
    (MultiContextList outcome arrival).2 = none ∧
    (∀ c, c ∈ contexts → c ≠ f → ∀ o, o ∈ objsOf c →
      (⟨c, o⟩ : ContextObject α) ∈ (MultiContextList outcome arrival).1) ∧
    (∀ x, x ∈ (MultiContextList outcome arrival).1 → x.Context ≠ f) := by
  refine ⟨rfl, ?_, ?_⟩
  · intro c hc hne o ho
    exact (mclStep_foldl_mem outcome arrival [] ⟨c, o⟩).mpr
      (Or.inr ⟨c, hperm.mem_iff.mpr hc, objsOf c, hok c hne, rfl, ho⟩)
  · intro x hx
    rcases (mclStep_foldl_mem outcome arrival [] x).mp hx with h | ⟨c, _, objs, hobjs, hctx, _⟩
    · exact absurd h (List.not_mem_nil x)
    · intro hxf
      have hcf : c = f := hctx.symm.trans hxf
      rw [hcf, hf] at hobjs
      exact Except.noConfusion hobjs

/-- A concrete listing outcome where only context "b" fails. -/
def listOutcome3 : GoStr → Except GoStr (List GoStr) :=
  fun c => if c = gs "b" then .error (gs "unreachable") else .ok [c ++ gs "/pod"]

/-- Witness for C3: contexts a, b, c with b unreachable, results arriving in
reversed order. -/
theorem c3_multiContextList_isolation_witness :
    (MultiContextList listOutcome3 [gs "c", gs "b", gs "a"]).2 = none ∧
    (⟨gs "a", gs "a" ++ gs "/pod"⟩ : ContextObject GoStr)
      ∈ (MultiContextList listOutcome3 [gs "c", gs "b", gs "a"]).1 ∧
    (⟨gs "c", gs "c" ++ gs "/pod"⟩ : ContextObject GoStr)
      ∈ (MultiContextList listOutcome3 [gs "c", gs "b", gs "a"]).1 := by
  have h := c3_multiContextList_isolation listOutcome3 [gs "a", gs "b", gs "c"]
    [gs "c", gs "b", gs "a"] (gs "b") (fun c => [c ++ gs "/pod"]) (gs "unreachable")
    (by decide) rfl
    (fun c hc => by unfold listOutcome3; rw [if_neg hc])
  exact ⟨h.1,
    h.2.1 (gs "a") (by decide) (by decide) (gs "a" ++ gs "/pod") (by decide),
    h.2.1 (gs "c") (by decide) (by decide) (gs "c" ++ gs "/pod") (by decide)⟩

/-! ## Multi-context version probing (package dao) -/

/-- Modelled from the spec: the sentinel constant `client.NA` of the internal
client package (not under src), the "not applicable" version string "N/A". -/
def NA : GoStr := gs "N/A"

/-- The version string one probe goroutine sends for its context (part_000
lines 147-168): `NA` on any failure — config resolution, client construction,
or version query, all abstracted by `probe` returning `none` — and the
reported version otherwise. -/
def verSent (probe : GoStr → Option GoStr) (c : GoStr) : GoStr :=
  match probe c with
  | none => NA
  | some v => v

/-- Embeds `MultiContextServerVersions`' drain loop (part_000 lines 171-176):
build the map by `out[r.ctx] = r.ver` over the channel arrival order. The Go
map is modelled as a lookup function, `none` for an absent key. -/
def MultiContextServerVersions (probe : GoStr → Option GoStr)
    (arrival : List GoStr) : GoStr → Option GoStr :=
  arrival.foldl (fun out c => fun k => if k = c then some (verSent probe c) else out k)
    (fun _ => none)

theorem mcsv_foldl_lookup (probe : GoStr → Option GoStr) (arrival : List GoStr) :
    ∀ (m : GoStr → Option GoStr) (k : GoStr),
      arrival.foldl (fun out c => fun k' => if k' = c then some (verSent probe c) else out k') m k
        = if k ∈ arrival then some (verSent probe k) else m k := by
  induction arrival with
  | nil =>
    intro m k
    simp
  | cons a rest ih =>
    intro m k
    rw [List.foldl_cons, ih]
    by_cases hk : k ∈ rest
    · simp [hk]
    · by_cases hka : k = a
      · subst hka
        simp [hk]
      · simp [hk, hka]

/-- Claim C5: for distinct requested contexts, the returned map has exactly
one entry per requested context — the probed version on success, the `NA`
sentinel on failure — and no entry for anything else, whatever the channel
arrival order. -/
theorem c5_serverVersions_total (probe : GoStr → Option GoStr)
    (contexts arrival : List GoStr) (hperm : arrival.Perm contexts)
    (hnodup : contexts.Nodup) :
    (∀ c, c ∈ contexts →
      MultiContextServerVersions probe arrival c = some ((probe c).getD NA)) ∧
    (∀ c, c ∉ contexts → MultiContextServerVersions probe arrival c = none) := by
  constructor
  · intro c hc
    unfold MultiContextServerVersions
    rw [mcsv_foldl_lookup, if_pos (hperm.mem_iff.mpr hc)]
    congr 1
    unfold verSent
    cases probe c <;> rfl
  · intro c hc
    unfold MultiContextServerVersions
    rw [mcsv_foldl_lookup, if_neg (fun h => hc (hperm.mem_iff.mp h))]

/-- A concrete probe where only context "bad" fails. -/
def probe5 : GoStr → Option GoStr :=
  fun c => if c = gs "bad" then none else some (gs "v1.30.0")

/-- Witness for C5: a failing and a succeeding context, reversed arrival. -/
theorem c5_serverVersions_total_witness :
    MultiContextServerVersions probe5 [gs "bad", gs "good"] (gs "good")
      = some ((probe5 (gs "good")).getD NA) ∧
    MultiContextServerVersions probe5 [gs "bad", gs "good"] (gs "bad")
      = some ((probe5 (gs "bad")).getD NA) ∧
    MultiContextServerVersions probe5 [gs "bad", gs "good"] (gs "other") = none := by
  have h := c5_serverVersions_total probe5 [gs "good", gs "bad"] [gs "bad", gs "good"]
    (by decide) (by decide)
  exact ⟨h.1 (gs "good") (by decide), h.1 (gs "bad") (by decide), h.2 (gs "other") (by decide)⟩

/-! ## Connectivity Supervisor (internal/view/app.go) -/

/-- Embeds `clusterRefresh = 15 * time.Second` (app.go line 42), in seconds:
the base probe cadence. -/
def clusterRefresh : Nat := 15

/-- Embeds one `refreshCluster` call (app.go lines 415-464), as a function of
the probe outcome `connOK` (`CheckConnectivity`), whether a top content view
exists (`c != nil`), the consecutive-failure counter `conRetry` and the
configured `maxConnRetry`. Returns the new counter (reset to 0 on success,
incremented on failure when a view exists), whether the session was ended
(`count >= maxConnRetry` triggers `BailOut`), and whether an error was
returned (`count > 0`). -/
def refreshCluster (connOK hasTop : Bool) (conRetry maxConnRetry : Nat) :
    Nat × Bool × Bool :=
  let retry := if connOK then 0 else if hasTop then conRetry + 1 else conRetry
  (retry, decide (maxConnRetry ≤ retry), decide (0 < retry))

/-- State carried by the `clusterUpdater` loop (app.go lines 382-413). -/
structure UpdaterState where
  conRetry : Nat
  delay : Nat
  bailed : Bool

/-- One iteration of `clusterUpdater`'s timer loop (app.go lines 400-410):
run `refreshCluster`; on error take the next exponential-backoff delay
(`nextBackOff`, with `none` standing for `backoff.Stop`, which also ends the
session); on success reset the backoff and return to the base cadence. -/
def clusterUpdaterStep (nextBackOff : Nat → Option Nat) (connOK hasTop : Bool)
    (maxConnRetry : Nat) (s : UpdaterState) : UpdaterState :=
  if (refreshCluster connOK hasTop s.conRetry maxConnRetry).2.1 then
    { conRetry := (refreshCluster connOK hasTop s.conRetry maxConnRetry).1,
      delay := s.delay, bailed := true }
  else if (refreshCluster connOK hasTop s.conRetry maxConnRetry).2.2 then
    match nextBackOff s.delay with
    | none =>
        { conRetry := (refreshCluster connOK hasTop s.conRetry maxConnRetry).1,
          delay := s.delay, bailed := true }
    | some d =>
        { conRetry := (refreshCluster connOK hasTop s.conRetry maxConnRetry).1,
          delay := d, bailed := false }
  else
    { conRetry := (refreshCluster connOK hasTop s.conRetry maxConnRetry).1,
      delay := clusterRefresh, bailed := false }

/-- Claim C4: once the consecutive-failure counter reaches `maxConnRetry` the
supervisor ends the session (`BailOut`); after any successful probe the
counter is zero again and (when the retry budget is positive, so the session
survives) the delay is back to the base cadence. -/
theorem c4_supervisor (nextBackOff : Nat → Option Nat) (connOK hasTop : Bool)
    (maxConnRetry : Nat) (s : UpdaterState) :
    (maxConnRetry ≤ (refreshCluster connOK hasTop s.conRetry maxConnRetry).1 →
      (clusterUpdaterStep nextBackOff connOK hasTop maxConnRetry s).bailed = true) ∧
    (connOK = true →
      (clusterUpdaterStep nextBackOff connOK hasTop maxConnRetry s).conRetry = 0 ∧
      (0 < maxConnRetry →
        (clusterUpdaterStep nextBackOff connOK hasTop maxConnRetry s).delay = clusterRefresh ∧
        (clusterUpdaterStep nextBackOff connOK hasTop maxConnRetry s).bailed = false)) := by
  constructor
  · intro h
    have hb : (refreshCluster connOK hasTop s.conRetry maxConnRetry).2.1 = true :=
      decide_eq_true h
    unfold clusterUpdaterStep
    rw [if_pos hb]
  · intro hok
    subst hok
    have hr1 : (refreshCluster true hasTop s.conRetry maxConnRetry).1 = 0 := rfl
    have hr3 : (refreshCluster true hasTop s.conRetry maxConnRetry).2.2 = false := rfl
    constructor
    · unfold clusterUpdaterStep
      by_cases hb : (refreshCluster true hasTop s.conRetry maxConnRetry).2.1 = true
      · rw [if_pos hb]
        exact hr1
      · rw [if_neg hb, hr3]
        simp only [Bool.false_eq_true, if_neg, if_false]
        exact hr1
    · intro hpos
      have hb : (refreshCluster true hasTop s.conRetry maxConnRetry).2.1 = false := by
        simp only [refreshCluster, if_pos]
        exact decide_eq_false (by omega)
      unfold clusterUpdaterStep
      rw [hb, hr3]
      exact ⟨rfl, rfl⟩

/-- Witness for C4: a counter hitting the maximum bails; a success resets the
counter and the cadence. -/
theorem c4_supervisor_witness :
    (clusterUpdaterStep (fun _ => none) false true 5 ⟨4, 30, false⟩).bailed = true ∧
    (clusterUpdaterStep (fun _ => none) true true 5 ⟨3, 99, false⟩).conRetry = 0 ∧
    (clusterUpdaterStep (fun _ => none) true true 5 ⟨3, 99, false⟩).delay = clusterRefresh :=
  ⟨(c4_supervisor (fun _ => none) false true 5 ⟨4, 30, false⟩).1 (by decide),
   ((c4_supervisor (fun _ => none) true true 5 ⟨3, 99, false⟩).2 rfl).1,
   (((c4_supervisor (fun _ => none) true true 5 ⟨3, 99, false⟩).2 rfl).2 (by omega)).1⟩
